import Mathlib

/-!
Verification of the gcfl-sim fast kernels (src/accel/cpp/fast_kernels.cpp).

The C++ kernels operate on `std::vector<double>`.  We embed a double as a
value that is either a finite number (modelled exactly as a rational) or
one of the non-finite values NaN, +inf, -inf.  All control flow of the
kernels (finite filtering, emptiness checks, sorting, ratio clamping,
`llround`, the `2*k >= n` guard, weight clipping, the length check, the
`sum <= 0` fallback and the normalising division) is translated directly
from the source; arithmetic on the finite values is exact.
-/

namespace GcflFast

/-- A double value: finite (carrying its exact value) or non-finite. -/
inductive D where
  | fin : ℚ → D
  | nan : D
  | pinf : D
  | ninf : D
deriving DecidableEq

/-- The `std::isfinite` test on an embedded double. -/
def D.isFinite : D → Bool
  | D.fin _ => true
  | _ => false

/-- The `filter_finite` helper: erase the non-finite entries, keeping order
(fast_kernels.cpp lines 9-12). -/
def filter_finite (v : List D) : List D :=
  v.filter (fun d => d.isFinite)

/-- The finite entries of a sample sequence, as their exact values, in
order.  A vector that survived `filter_finite` is exactly described by
this list of rationals. -/
def finVals (v : List D) : List ℚ :=
  v.filterMap (fun d => match d with | D.fin q => some q | _ => none)

/-- The `mean` helper (fast_kernels.cpp lines 14-18): NaN on the empty vector,
otherwise the accumulated sum divided by the size. -/
def mean (v : List ℚ) : D :=
  if v = [] then D.nan else D.fin (v.sum / (v.length : ℚ))

/-- The sorting step shared by both kernels: `std::sort` ascending unless
the caller asserts the data is already sorted. -/
def sortVals (v : List ℚ) (assume_sorted : Bool) : List ℚ :=
  if assume_sorted then v else List.insertionSort (· ≤ ·) v

/-- The `std::llround` rounding: nearest integer, halfway cases rounded away from
zero. -/
def llroundQ (q : ℚ) : ℤ :=
  if 0 ≤ q then ⌊q + 1/2⌋ else ⌈q - 1/2⌉

/-- The trim-ratio normalisation of `trimmed_mean`
(fast_kernels.cpp lines 26-28): non-finite becomes 0.0, then clamp to
[0, 0.5]. -/
def clampTrim (tr : D) : ℚ :=
  let r : ℚ := match tr with | D.fin q => q | _ => 0
  let r := if r < 0 then 0 else r
  if r > 1/2 then 1/2 else r

/-- The `trimmed_mean` kernel (fast_kernels.cpp lines 20-41). -/
def trimmed_mean (v : List D) (tr : D) (assume_sorted : Bool) : D :=
  let v' := finVals v
  if v' = [] then D.nan
  else
    let vs := sortVals v' assume_sorted
    let r := clampTrim tr
    let n := vs.length
    let k : ℕ := (llroundQ (r * (n : ℚ))).toNat
    if n ≤ 2 * k then mean vs
    else
      let slice := (vs.drop k).take (n - k - k)
      let cnt := slice.length
      D.fin (slice.sum / ((if 0 < cnt then cnt else 1 : ℕ) : ℚ))

/-- The weight clipping of `sorted_weighted_mean`
(fast_kernels.cpp lines 50-52): non-finite or negative weights become
0.0. -/
def clipWeight (d : D) : ℚ :=
  match d with
  | D.fin q => if q < 0 then 0 else q
  | _ => 0

/-- The `sorted_weighted_mean` kernel (fast_kernels.cpp lines 43-66).  The
`std::invalid_argument` throw is modelled as an `Except.error` carrying
the same message. -/
def sorted_weighted_mean (v : List D) (w : List D) (assume_sorted : Bool) :
    Except String D :=
  let v' := finVals v
  if v' = [] then Except.ok D.nan
  else
    let vs := sortVals v' assume_sorted
    let w' := w.map clipWeight
    if w'.length ≠ vs.length then
      Except.error "weights length must match values length"
    else
      let s := w'.sum
      if s ≤ 0 then Except.ok (mean vs)
      else
        let wn := w'.map (· / s)
        Except.ok (D.fin (List.zipWith (· * ·) vs wn).sum)

/-- The filtered, possibly sorted, sample sequence both kernels operate
on: the local `v` of the C++ code after `filter_finite` and the optional
`std::sort`. -/
def sortedSamples (v : List D) (assume_sorted : Bool) : List ℚ :=
  sortVals (finVals v) assume_sorted

/-- The trim count `k` of `trimmed_mean` (fast_kernels.cpp line 31):
`llround` of the clamped ratio times the length, cast to an unsigned
size. -/
def trimK (v : List D) (tr : D) (assume_sorted : Bool) : ℕ :=
  (llroundQ (clampTrim tr * ((sortedSamples v assume_sorted).length : ℚ))).toNat

/-! ### Basic lemmas about the embedded helpers -/

lemma finVals_filter_finite (v : List D) : finVals (filter_finite v) = finVals v := by
  induction v with
  | nil => rfl
  | cons d t ih =>
      cases d <;>
        simp only [filter_finite, finVals, List.filter_cons, List.filterMap_cons,
          D.isFinite] at ih ⊢ <;>
        simpa using ih

lemma length_sortVals (l : List ℚ) (b : Bool) : (sortVals l b).length = l.length := by
  cases b with
  | true => rfl
  | false => simpa [sortVals] using (List.perm_insertionSort (· ≤ ·) l).length_eq

lemma sum_sortVals (l : List ℚ) (b : Bool) : (sortVals l b).sum = l.sum := by
  cases b with
  | true => rfl
  | false => simpa [sortVals] using (List.perm_insertionSort (· ≤ ·) l).sum_eq

lemma sortVals_eq_nil_iff (l : List ℚ) (b : Bool) : sortVals l b = [] ↔ l = [] := by
  constructor
  · intro h
    have := length_sortVals l b
    rw [h] at this
    exact List.length_eq_zero.mp this.symm
  · intro h
    subst h
    cases b <;> rfl

lemma clampTrim_nonneg (tr : D) : 0 ≤ clampTrim tr := by
  unfold clampTrim
  cases tr <;> dsimp only <;> split <;> split <;> norm_num <;> linarith

lemma clampTrim_le_half (tr : D) : clampTrim tr ≤ 1/2 := by
  unfold clampTrim
  cases tr <;> dsimp only <;> split <;> split <;> norm_num <;> linarith

lemma clipWeight_nonneg (d : D) : 0 ≤ clipWeight d := by
  unfold clipWeight
  cases d <;> dsimp only
  case fin q =>
    split
    · norm_num
    · linarith [not_lt.mp (by assumption : ¬ q < 0)]
  all_goals norm_num

lemma llroundQ_nonneg (q : ℚ) (h : 0 ≤ q) : 0 ≤ llroundQ q := by
  unfold llroundQ
  rw [if_pos h]
  positivity

lemma llroundQ_spec (q : ℚ) :
    |(llroundQ q : ℚ) - q| ≤ 1/2 ∧
    (|(llroundQ q : ℚ) - q| = 1/2 → |q| ≤ |(llroundQ q : ℚ)|) := by
  by_cases h : 0 ≤ q
  · unfold llroundQ
    rw [if_pos h]
    have h1 : ((⌊q + 1/2⌋ : ℤ) : ℚ) ≤ q + 1/2 := Int.floor_le _
    have h2 : q + 1/2 < (⌊q + 1/2⌋ : ℤ) + 1 := Int.lt_floor_add_one _
    constructor
    · rw [abs_le]
      constructor <;> linarith
    · intro habs
      rcases (abs_eq (by norm_num : (0:ℚ) ≤ 1/2)).mp habs with h3 | h3
      · rw [abs_of_nonneg h, abs_of_nonneg (by linarith : (0:ℚ) ≤ (⌊q + 1/2⌋ : ℤ))]
        linarith
      · linarith
  · push_neg at h
    unfold llroundQ
    rw [if_neg (not_le.mpr h)]
    have h1 : q - 1/2 ≤ ((⌈q - 1/2⌉ : ℤ) : ℚ) := Int.le_ceil _
    have h2 : ((⌈q - 1/2⌉ : ℤ) : ℚ) < (q - 1/2) + 1 := Int.ceil_lt_add_one _
    constructor
    · rw [abs_le]
      constructor <;> linarith
    · intro habs
      rcases (abs_eq (by norm_num : (0:ℚ) ≤ 1/2)).mp habs with h3 | h3
      · linarith
      · rw [abs_of_neg h, abs_of_nonpos (by linarith : ((⌈q - 1/2⌉ : ℤ) : ℚ) ≤ 0)]
        linarith

lemma trimmed_mean_eval (v : List D) (tr : D) (b : Bool) (h : finVals v ≠ []) :
    trimmed_mean v tr b =
      if (sortedSamples v b).length ≤ 2 * trimK v tr b then
        mean (sortedSamples v b)
      else
        D.fin ((((sortedSamples v b).drop (trimK v tr b)).take
            ((sortedSamples v b).length - trimK v tr b - trimK v tr b)).sum /
          (((if 0 < (((sortedSamples v b).drop (trimK v tr b)).take
              ((sortedSamples v b).length - trimK v tr b - trimK v tr b)).length
            then (((sortedSamples v b).drop (trimK v tr b)).take
              ((sortedSamples v b).length - trimK v tr b - trimK v tr b)).length
            else 1) : ℕ) : ℚ)) := by
  simp only [trimmed_mean, trimK, sortedSamples, if_neg h]

lemma trimmed_mean_cases (v : List D) (tr : D) (b : Bool)
    (h : finVals v ≠ []) :
    ((sortedSamples v b).length ≤ 2 * trimK v tr b →
      trimmed_mean v tr b = mean (sortedSamples v b)) ∧
    (2 * trimK v tr b < (sortedSamples v b).length →
      1 ≤ (sortedSamples v b).length - 2 * trimK v tr b ∧
      trimmed_mean v tr b =
        D.fin ((((sortedSamples v b).drop (trimK v tr b)).take
            ((sortedSamples v b).length - 2 * trimK v tr b)).sum /
          ((((sortedSamples v b).length - 2 * trimK v tr b : ℕ)) : ℚ))) := by
  rw [trimmed_mean_eval v tr b h]
  constructor
  · intro hle
    rw [if_pos hle]
  · intro hlt
    have hsub : (sortedSamples v b).length - trimK v tr b - trimK v tr b =
        (sortedSamples v b).length - 2 * trimK v tr b := by omega
    rw [if_neg (by omega), hsub]
    have hlen : (((sortedSamples v b).drop (trimK v tr b)).take
        ((sortedSamples v b).length - 2 * trimK v tr b)).length =
        (sortedSamples v b).length - 2 * trimK v tr b := by
      rw [List.length_take, List.length_drop]
      omega
    rw [hlen, if_pos (by omega)]
    exact ⟨by omega, rfl⟩

lemma trimmed_mean_congr (v u : List D) (tr : D) (b : Bool)
    (h : finVals v = finVals u) : trimmed_mean v tr b = trimmed_mean u tr b := by
  unfold trimmed_mean
  rw [h]

lemma sorted_weighted_mean_congr (v u w : List D) (b : Bool)
    (h : finVals v = finVals u) :
    sorted_weighted_mean v w b = sorted_weighted_mean u w b := by
  unfold sorted_weighted_mean
  rw [h]

/-! ### Claims -/

/-- C5: whenever the sample sequence is empty after removing non-finite
values, both `trimmed_mean` and `sorted_weighted_mean` return the NaN
sentinel and raise no error, whatever the trim ratio, the weights and the
sortedness flags are. -/
theorem C5_empty_after_filter_gives_nan (v w : List D) (tr : D) (b b' : Bool)
    (h : finVals v = []) :
    trimmed_mean v tr b = D.nan ∧
    sorted_weighted_mean v w b' = Except.ok D.nan := by
  constructor
  · simp [trimmed_mean, h]
  · simp [sorted_weighted_mean, h]

/-- Witness for C5 at a concrete input made of only non-finite samples. -/
theorem C5_empty_after_filter_gives_nan_witness :
    finVals [D.nan, D.pinf, D.ninf] = [] ∧
    (trimmed_mean [D.nan, D.pinf, D.ninf] (D.fin 1) false = D.nan ∧
     sorted_weighted_mean [D.nan, D.pinf, D.ninf] [D.fin 1] true =
       Except.ok D.nan) :=
  ⟨rfl, C5_empty_after_filter_gives_nan [D.nan, D.pinf, D.ninf] [D.fin 1]
    (D.fin 1) false true rfl⟩

/-- C2: on a sample sequence containing at least one non-finite value,
both kernels return exactly what they return on the sequence with the
non-finite values removed (the other arguments unchanged). -/
theorem C2_result_ignores_nonfinite (v w : List D) (tr : D) (b b' : Bool)
    (h : ∃ d ∈ v, d.isFinite = false) :
    trimmed_mean v tr b = trimmed_mean (filter_finite v) tr b ∧
    sorted_weighted_mean v w b' = sorted_weighted_mean (filter_finite v) w b' :=
  ⟨(trimmed_mean_congr _ _ tr b (finVals_filter_finite v)).symm,
   (sorted_weighted_mean_congr _ _ w b' (finVals_filter_finite v)).symm⟩

/-- Witness for C2 at a concrete input containing a NaN. -/
theorem C2_result_ignores_nonfinite_witness :
    (∃ d ∈ [D.nan, D.fin 2, D.fin 1], d.isFinite = false) ∧
    (trimmed_mean [D.nan, D.fin 2, D.fin 1] (D.fin 0) false =
       trimmed_mean (filter_finite [D.nan, D.fin 2, D.fin 1]) (D.fin 0) false ∧
     sorted_weighted_mean [D.nan, D.fin 2, D.fin 1] [D.fin 1, D.fin 1] false =
       sorted_weighted_mean (filter_finite [D.nan, D.fin 2, D.fin 1])
         [D.fin 1, D.fin 1] false) :=
  ⟨⟨D.nan, by simp, rfl⟩,
   C2_result_ignores_nonfinite [D.nan, D.fin 2, D.fin 1] [D.fin 1, D.fin 1]
     (D.fin 0) false false ⟨D.nan, by simp, rfl⟩⟩

/-- C1: `sorted_weighted_mean` fails with the `InvalidArgument` message
"weights length must match values length" exactly when the finite-filtered
sample sequence is non-empty and the clipped weight sequence's length
differs from the filtered (possibly sorted) sample sequence's length; in
every other case it returns a value. -/
theorem C1_swm_error_iff (v w : List D) (b : Bool) :
    (sorted_weighted_mean v w b =
        Except.error "weights length must match values length" ↔
      finVals v ≠ [] ∧
        (w.map clipWeight).length ≠ (sortVals (finVals v) b).length) ∧
    ((∃ d, sorted_weighted_mean v w b = Except.ok d) ↔
      ¬(finVals v ≠ [] ∧
        (w.map clipWeight).length ≠ (sortVals (finVals v) b).length)) := by
  by_cases hv : finVals v = []
  · simp [sorted_weighted_mean, hv]
  · by_cases hw : (w.map clipWeight).length = (sortVals (finVals v) b).length
    · have hok : ∃ d, sorted_weighted_mean v w b = Except.ok d := by
        simp only [sorted_weighted_mean, if_neg hv, if_neg (not_not.mpr hw)]
        split
        · exact ⟨_, rfl⟩
        · exact ⟨_, rfl⟩
      obtain ⟨d, hd⟩ := hok
      refine ⟨?_, ?_⟩
      · rw [hd]
        simp [hw]
      · simp [hd, hw]
    · have herr : sorted_weighted_mean v w b =
          Except.error "weights length must match values length" := by
        simp only [sorted_weighted_mean, if_neg hv, if_pos hw]
      have hw' : ¬ w.length = (sortVals (finVals v) b).length := by
        simpa using hw
      refine ⟨?_, ?_⟩
      · rw [herr]
        simp [hv, hw']
      · simp [herr, hv, hw']

/-- C4: `sorted_weighted_mean` zeroes every non-finite or negative weight
before use, keeps nonnegative finite weights, and whenever the clipped
weights sum to at most 0 (lengths matching, non-empty samples) it falls
back to the plain mean of the filtered, possibly sorted, samples. -/
theorem C4_clip_and_zero_sum_fallback :
    (∀ d : D, d.isFinite = false → clipWeight d = 0) ∧
    (∀ q : ℚ, q < 0 → clipWeight (D.fin q) = 0) ∧
    (∀ q : ℚ, 0 ≤ q → clipWeight (D.fin q) = q) ∧
    (∀ (v w : List D) (b : Bool), finVals v ≠ [] →
      (w.map clipWeight).length = (sortVals (finVals v) b).length →
      (w.map clipWeight).sum ≤ 0 →
      sorted_weighted_mean v w b = Except.ok (mean (sortVals (finVals v) b))) := by
  refine ⟨?_, ?_, ?_, ?_⟩
  · intro d hd
    cases d <;> simp [D.isFinite] at hd ⊢ <;> rfl
  · intro q hq
    simp [clipWeight, hq]
  · intro q hq
    simp [clipWeight, not_lt.mpr hq]
  · intro v w b hv hlen hsum
    simp only [sorted_weighted_mean, if_neg hv, if_neg (not_not.mpr hlen),
      if_pos hsum]

/-- Witness for C4: NaN and negative weights clip to 0, a positive weight
survives, and an all-zero weight vector triggers the mean fallback. -/
theorem C4_clip_and_zero_sum_fallback_witness :
    clipWeight D.nan = 0 ∧ clipWeight (D.fin (-1)) = 0 ∧
    clipWeight (D.fin 5) = 5 ∧
    sorted_weighted_mean [D.fin 1, D.fin 2] [D.nan, D.fin (-1)] true =
      Except.ok (mean (sortVals (finVals [D.fin 1, D.fin 2]) true)) :=
  ⟨C4_clip_and_zero_sum_fallback.1 D.nan rfl,
   C4_clip_and_zero_sum_fallback.2.1 (-1) (by norm_num),
   C4_clip_and_zero_sum_fallback.2.2.1 5 (by norm_num),
   C4_clip_and_zero_sum_fallback.2.2.2 [D.fin 1, D.fin 2] [D.nan, D.fin (-1)]
     true (by simp [finVals]) (by simp [sortVals, finVals])
     (by simp [clipWeight])⟩

/-- C8: clipped weights are all nonnegative, so their sum is nonnegative
and the `sum <= 0` fallback test holds exactly when the sum is zero; on
the non-fallback path every weight normalised by the (then strictly
positive) sum lies in [0, 1]. -/
theorem C8_normalized_weights_in_unit_interval (w : List D) :
    0 ≤ (w.map clipWeight).sum ∧
    ((w.map clipWeight).sum ≤ 0 ↔ (w.map clipWeight).sum = 0) ∧
    (0 < (w.map clipWeight).sum →
      ∀ x ∈ (w.map clipWeight).map (· / (w.map clipWeight).sum),
        0 ≤ x ∧ x ≤ 1) := by
  have hnn : ∀ x ∈ w.map clipWeight, 0 ≤ x := by
    intro x hx
    obtain ⟨d, _, rfl⟩ := List.mem_map.mp hx
    exact clipWeight_nonneg d
  have hs : 0 ≤ (w.map clipWeight).sum := List.sum_nonneg hnn
  refine ⟨hs, ⟨fun h => le_antisymm h hs, fun h => le_of_eq h⟩, ?_⟩
  intro hpos x hx
  obtain ⟨q, hq, rfl⟩ := List.mem_map.mp hx
  exact ⟨div_nonneg (hnn q hq) hs,
    (div_le_one hpos).mpr (List.single_le_sum hnn q hq)⟩

/-- Witness for C8 at the weight vector [1, 3]: normalised first weight
1/4 lies in [0, 1]. -/
theorem C8_normalized_weights_in_unit_interval_witness :
    0 ≤ (List.map clipWeight [D.fin 1, D.fin 3]).sum ∧
    (0 ≤ (1:ℚ)/4 ∧ (1:ℚ)/4 ≤ 1) :=
  ⟨(C8_normalized_weights_in_unit_interval [D.fin 1, D.fin 3]).1,
   (C8_normalized_weights_in_unit_interval [D.fin 1, D.fin 3]).2.2
     (by norm_num [clipWeight]) ((1:ℚ)/4) (by norm_num [clipWeight])⟩

lemma trimmed_mean_ratio_congr (v : List D) (t1 t2 : D) (b : Bool)
    (h : clampTrim t1 = clampTrim t2) :
    trimmed_mean v t1 b = trimmed_mean v t2 b := by
  unfold trimmed_mean
  rw [h]

lemma clampTrim_fin (q : ℚ) :
    clampTrim (D.fin q) =
      if (if q < 0 then 0 else q) > 1/2 then 1/2
      else (if q < 0 then 0 else q) := rfl

lemma clampTrim_of_not_finite (tr : D) (h : tr.isFinite = false) :
    clampTrim tr = 0 := by
  cases tr with
  | fin q => simp [D.isFinite] at h
  | nan => unfold clampTrim; norm_num
  | pinf => unfold clampTrim; norm_num
  | ninf => unfold clampTrim; norm_num

/-- C7: the trim ratio is normalised before use — non-finite ratios become
0, negative ratios clamp to 0, ratios above 1/2 clamp to 1/2 — hence for
any ratio above 1/2 the result coincides with the result at ratio 1/2. -/
theorem C7_ratio_clamped (tr : D) (q : ℚ) (v : List D) :
    (tr.isFinite = false → clampTrim tr = 0) ∧
    (q < 0 → clampTrim (D.fin q) = 0) ∧
    (1/2 < q → clampTrim (D.fin q) = 1/2) ∧
    (1/2 < q →
      trimmed_mean v (D.fin q) false = trimmed_mean v (D.fin (1/2)) false) := by
  have hhalf : clampTrim (D.fin (1/2)) = 1/2 := by
    rw [clampTrim_fin]
    norm_num
  have hclamp : 1/2 < q → clampTrim (D.fin q) = 1/2 := by
    intro hq
    have h0 : ¬ q < 0 := by linarith
    rw [clampTrim_fin, if_neg h0, if_pos (show q > 1/2 from hq)]
  refine ⟨clampTrim_of_not_finite tr, ?_, hclamp, ?_⟩
  · intro hq
    have h2 : ¬ (0:ℚ) > 1/2 := by norm_num
    rw [clampTrim_fin, if_pos hq, if_neg h2]
  · intro hq
    exact trimmed_mean_ratio_congr v (D.fin q) (D.fin (1/2)) false
      ((hclamp hq).trans hhalf.symm)

/-- Witness for C7 at ratio 1 (> 1/2) and sample vector [1, 2]. -/
theorem C7_ratio_clamped_witness :
    clampTrim D.pinf = 0 ∧ clampTrim (D.fin (-1)) = 0 ∧
    clampTrim (D.fin 1) = 1/2 ∧
    trimmed_mean [D.fin 1, D.fin 2] (D.fin 1) false =
      trimmed_mean [D.fin 1, D.fin 2] (D.fin (1/2)) false :=
  ⟨(C7_ratio_clamped D.pinf 1 []).1 rfl,
   (C7_ratio_clamped (D.fin (-1)) (-1) []).2.1 (by norm_num),
   (C7_ratio_clamped (D.fin 1) 1 []).2.2.1 (by norm_num),
   (C7_ratio_clamped (D.fin 1) 1 [D.fin 1, D.fin 2]).2.2.2 (by norm_num)⟩

/-- C3: on a non-empty filtered/sorted sequence of length n, the trim
count k is `llround` of the clamped ratio times n — the nearest integer,
ties rounded half away from zero; if `2*k >= n` the plain mean is
returned, otherwise the average of the elements at positions [k, n-k),
whose number `n - 2*k` is at least 1. -/
theorem C3_trim_count_and_result (v : List D) (tr : D) (b : Bool)
    (h : sortedSamples v b ≠ []) :
    (trimK v tr b =
        (llroundQ (clampTrim tr * ((sortedSamples v b).length : ℚ))).toNat ∧
      |(llroundQ (clampTrim tr * ((sortedSamples v b).length : ℚ)) : ℚ) -
          clampTrim tr * ((sortedSamples v b).length : ℚ)| ≤ 1/2 ∧
      (|(llroundQ (clampTrim tr * ((sortedSamples v b).length : ℚ)) : ℚ) -
            clampTrim tr * ((sortedSamples v b).length : ℚ)| = 1/2 →
        |clampTrim tr * ((sortedSamples v b).length : ℚ)| ≤
          |(llroundQ (clampTrim tr * ((sortedSamples v b).length : ℚ)) : ℚ)|)) ∧
    ((sortedSamples v b).length ≤ 2 * trimK v tr b →
      trimmed_mean v tr b = mean (sortedSamples v b)) ∧
    (2 * trimK v tr b < (sortedSamples v b).length →
      1 ≤ (sortedSamples v b).length - 2 * trimK v tr b ∧
      trimmed_mean v tr b =
        D.fin ((((sortedSamples v b).drop (trimK v tr b)).take
            ((sortedSamples v b).length - 2 * trimK v tr b)).sum /
          ((((sortedSamples v b).length - 2 * trimK v tr b : ℕ)) : ℚ))) := by
  have hfv : finVals v ≠ [] := by
    intro hc
    exact h ((sortVals_eq_nil_iff (finVals v) b).mpr hc)
  exact ⟨⟨rfl, (llroundQ_spec _).1, (llroundQ_spec _).2⟩,
    (trimmed_mean_cases v tr b hfv).1, (trimmed_mean_cases v tr b hfv).2⟩

/-- Witness for C3 at samples [2, 1] with ratio 0: k = 0, the loop path
is taken and averages both elements. -/
theorem C3_trim_count_and_result_witness :
    sortedSamples [D.fin 2, D.fin 1] false ≠ [] ∧
    (2 * trimK [D.fin 2, D.fin 1] (D.fin 0) false <
        (sortedSamples [D.fin 2, D.fin 1] false).length ∧
      (1 ≤ (sortedSamples [D.fin 2, D.fin 1] false).length -
          2 * trimK [D.fin 2, D.fin 1] (D.fin 0) false ∧
        trimmed_mean [D.fin 2, D.fin 1] (D.fin 0) false =
          D.fin ((((sortedSamples [D.fin 2, D.fin 1] false).drop
              (trimK [D.fin 2, D.fin 1] (D.fin 0) false)).take
              ((sortedSamples [D.fin 2, D.fin 1] false).length -
                2 * trimK [D.fin 2, D.fin 1] (D.fin 0) false)).sum /
            ((((sortedSamples [D.fin 2, D.fin 1] false).length -
                2 * trimK [D.fin 2, D.fin 1] (D.fin 0) false : ℕ)) : ℚ)))) := by
  have hk : trimK [D.fin 2, D.fin 1] (D.fin 0) false = 0 := by
    have h0 : clampTrim (D.fin 0) = 0 := by
      rw [clampTrim_fin]
      norm_num
    rw [trimK, h0, zero_mul]
    have : llroundQ 0 = 0 := by
      unfold llroundQ
      norm_num
    rw [this]
    rfl
  have hlt : 2 * trimK [D.fin 2, D.fin 1] (D.fin 0) false <
      (sortedSamples [D.fin 2, D.fin 1] false).length := by
    rw [hk]
    simp [sortedSamples, sortVals, finVals, List.insertionSort, List.orderedInsert]
  have hne : sortedSamples [D.fin 2, D.fin 1] false ≠ [] := by
    simp [sortedSamples, sortVals, finVals, List.insertionSort, List.orderedInsert]
  exact ⟨hne, hlt,
    (C3_trim_count_and_result [D.fin 2, D.fin 1] (D.fin 0) false hne).2.2 hlt⟩

/-- C9: whenever the summation loop of `trimmed_mean` is reached
(`2*k < n`), the loop count equals `n - 2*k`, is at least 1, and so the
`cnt > 0 ? cnt : 1` guard in the final division always selects `cnt`
itself. -/
theorem C9_loop_count_positive (v : List D) (tr : D) (b : Bool)
    (h : 2 * trimK v tr b < (sortedSamples v b).length) :
    (((sortedSamples v b).drop (trimK v tr b)).take
        ((sortedSamples v b).length - trimK v tr b - trimK v tr b)).length =
      (sortedSamples v b).length - 2 * trimK v tr b ∧
    1 ≤ (((sortedSamples v b).drop (trimK v tr b)).take
        ((sortedSamples v b).length - trimK v tr b - trimK v tr b)).length ∧
    (if 0 < (((sortedSamples v b).drop (trimK v tr b)).take
        ((sortedSamples v b).length - trimK v tr b - trimK v tr b)).length
      then (((sortedSamples v b).drop (trimK v tr b)).take
        ((sortedSamples v b).length - trimK v tr b - trimK v tr b)).length
      else 1) =
      (((sortedSamples v b).drop (trimK v tr b)).take
        ((sortedSamples v b).length - trimK v tr b - trimK v tr b)).length := by
  have hlen : (((sortedSamples v b).drop (trimK v tr b)).take
      ((sortedSamples v b).length - trimK v tr b - trimK v tr b)).length =
      (sortedSamples v b).length - 2 * trimK v tr b := by
    rw [List.length_take, List.length_drop]
    omega
  refine ⟨hlen, ?_, ?_⟩
  · rw [hlen]
    omega
  · rw [hlen, if_pos (by omega)]

/-- Witness for C9 at samples [2, 1] with ratio 0. -/
theorem C9_loop_count_positive_witness :
    2 * trimK [D.fin 2, D.fin 1] (D.fin 0) false <
      (sortedSamples [D.fin 2, D.fin 1] false).length ∧
    1 ≤ (((sortedSamples [D.fin 2, D.fin 1] false).drop
        (trimK [D.fin 2, D.fin 1] (D.fin 0) false)).take
        ((sortedSamples [D.fin 2, D.fin 1] false).length -
          trimK [D.fin 2, D.fin 1] (D.fin 0) false -
          trimK [D.fin 2, D.fin 1] (D.fin 0) false)).length := by
  have hk : trimK [D.fin 2, D.fin 1] (D.fin 0) false = 0 := by
    have h0 : clampTrim (D.fin 0) = 0 := by
      rw [clampTrim_fin]
      norm_num
    rw [trimK, h0, zero_mul]
    have : llroundQ 0 = 0 := by
      unfold llroundQ
      norm_num
    rw [this]
    rfl
  have hlt : 2 * trimK [D.fin 2, D.fin 1] (D.fin 0) false <
      (sortedSamples [D.fin 2, D.fin 1] false).length := by
    rw [hk]
    simp [sortedSamples, sortVals, finVals, List.insertionSort, List.orderedInsert]
  exact ⟨hlt, (C9_loop_count_positive [D.fin 2, D.fin 1] (D.fin 0) false hlt).2.1⟩

/-- C10: with `assume_sorted = true` the behaviour is total and fully
determined on the given (possibly unsorted) order: no sorting happens, and
on a non-empty filtered sequence the result is the plain mean when
`2*k >= n` and otherwise the average of the elements at positions
[k, n-k) in the given order. -/
theorem C10_assume_sorted_total (v : List D) (tr : D)
    (h : finVals v ≠ []) :
    sortedSamples v true = finVals v ∧
    ((finVals v).length ≤ 2 * trimK v tr true →
      trimmed_mean v tr true = mean (finVals v)) ∧
    (2 * trimK v tr true < (finVals v).length →
      trimmed_mean v tr true =
        D.fin ((((finVals v).drop (trimK v tr true)).take
            ((finVals v).length - 2 * trimK v tr true)).sum /
          ((((finVals v).length - 2 * trimK v tr true : ℕ)) : ℚ))) := by
  have hs : sortedSamples v true = finVals v := rfl
  refine ⟨hs, ?_, ?_⟩
  · intro hle
    have := (trimmed_mean_cases v tr true h).1
    rw [hs] at this
    exact this hle
  · intro hlt
    have := (trimmed_mean_cases v tr true h).2
    rw [hs] at this
    exact (this hlt).2

/-- Witness for C10: unsorted samples [3, 1, 2] with ratio 0 and
`assume_sorted = true` keep their given order. -/
theorem C10_assume_sorted_total_witness :
    finVals [D.fin 3, D.fin 1, D.fin 2] ≠ [] ∧
    sortedSamples [D.fin 3, D.fin 1, D.fin 2] true =
      finVals [D.fin 3, D.fin 1, D.fin 2] := by
  have h : finVals [D.fin 3, D.fin 1, D.fin 2] ≠ [] := by
    simp [finVals]
  exact ⟨h, (C10_assume_sorted_total [D.fin 3, D.fin 1, D.fin 2] (D.fin 0) h).1⟩

/-- C6: with trim ratio 0 (and sorting enabled) no trimming occurs:
`trimmed_mean v 0 false` is exactly the arithmetic mean of the finite
elements of `v`, for all-finite or mixed `v`. -/
theorem C6_zero_ratio_gives_mean (v : List D) :
    trimmed_mean v (D.fin 0) false = mean (finVals v) := by
  by_cases hv : finVals v = []
  · simp [trimmed_mean, hv, mean]
  · have hk : trimK v (D.fin 0) false = 0 := by
      have h0 : clampTrim (D.fin 0) = 0 := by
        rw [clampTrim_fin]
        norm_num
      rw [trimK, h0, zero_mul]
      have hl : llroundQ 0 = 0 := by
        unfold llroundQ
        norm_num
      rw [hl]
      rfl
    have hlt : 2 * trimK v (D.fin 0) false < (sortedSamples v false).length := by
      have hlen : (sortedSamples v false).length = (finVals v).length :=
        length_sortVals _ _
      have hpos : 0 < (finVals v).length := List.length_pos.mpr hv
      omega
    have hres := ((trimmed_mean_cases v (D.fin 0) false hv).2 hlt).2
    rw [hres, hk]
    simp only [Nat.mul_zero, Nat.sub_zero, List.drop_zero, List.take_length]
    rw [mean, if_neg hv]
    simp only [sortedSamples]
    rw [sum_sortVals, length_sortVals]

end GcflFast
